import Mathlib

/-!
Verification of the multi-step reasoning agent (src/main.py).

The Python program is shallowly embedded: strings are `List Char`, the
external generation service is a scripted environment (`Env`) mapping the
index of each `gemini_call` to the raw text it returns, `json.loads` is a
fueled recursive-descent JSON parser returning `Option Json`, and Python
exceptions (`json.JSONDecodeError`, `AttributeError`, `TypeError`) are the
`Except PyErr` monad.  `plan`, `execute`, `verify_llm`, `summarize_short`
and `solve` mirror the source functions line by line; the gemini call
counter is threaded explicitly.
-/

namespace Agent

abbrev Chars := List Char

/-- Python `str.strip()` whitespace set (ASCII part: space, tab, newline,
carriage return, vertical tab, form feed; exotic unicode spaces omitted). -/
def isPyWs (c : Char) : Bool :=
  c = ' ' || c = '\t' || c = '\n' || c = '\r' || c = '\x0b' || c = '\x0c'

/-- Python `str.strip()`: drop leading and trailing whitespace. -/
def pyStrip (s : Chars) : Chars :=
  ((s.dropWhile isPyWs).reverse.dropWhile isPyWs).reverse

/-- Fueled worker for Python `str.replace(pat, "")`: delete the leftmost
occurrence of `pat`, then continue after it (non-overlapping, left to
right, exactly Python's semantics for a non-empty pattern).  The fuel is
only a termination device; `pyRemove` instantiates it with the length of
the string, which is always sufficient. -/
def pyRemoveF (pat : Chars) : Nat → Chars → Chars
  | _, [] => []
  | 0, s => s
  | f + 1, c :: cs =>
    if pat ≠ [] ∧ pat <+: (c :: cs) then
      pyRemoveF pat f (List.drop pat.length (c :: cs))
    else
      c :: pyRemoveF pat f cs

/-- Python `s.replace(pat, "")` for a non-empty `pat`. -/
def pyRemove (pat s : Chars) : Chars := pyRemoveF pat s.length s

/-- JSON whitespace accepted by `json.loads` (space, tab, newline, return). -/
def isJsonWs (c : Char) : Bool :=
  c = ' ' || c = '\t' || c = '\n' || c = '\r'

def skipWs (s : Chars) : Chars := s.dropWhile isJsonWs

/-- Values produced by `json.loads`.  Numbers keep their parsed lexical
parts (sign, integer digits, fraction digits, exponent suffix) since the
program never does arithmetic on them; `nan`/`inf` cover the non-standard
`NaN`/`Infinity` literals Python's parser accepts by default. -/
inductive Json where
  | null : Json
  | bool (b : Bool) : Json
  | num (neg : Bool) (ip fp ex : Chars) : Json
  | nan : Json
  | inf (neg : Bool) : Json
  | str (s : Chars) : Json
  | arr (elems : List Json) : Json
  | obj (members : List (Chars × Json)) : Json
deriving Repr

/-- Python exceptions the embedded fragment can raise. -/
inductive PyErr where
  | jsonDecodeError : PyErr
  | attrError : PyErr
  | typeError : PyErr
deriving DecidableEq, Repr

/-- First-match association lookup (keys are unique after `buildObj`). -/
def assocLookup (kvs : List (Chars × Json)) (k : Chars) : Option Json :=
  match kvs with
  | [] => none
  | (k', v) :: rest => if k' = k then some v else assocLookup rest k

/-- Python dict insertion: a later duplicate key overwrites the value in
place, keeping the original position. -/
def insertKV (kvs : List (Chars × Json)) (k : Chars) (v : Json) : List (Chars × Json) :=
  match kvs with
  | [] => [(k, v)]
  | (k', v') :: rest => if k' = k then (k', v) :: rest else (k', v') :: insertKV rest k v

def buildObj (pairs : List (Chars × Json)) : List (Chars × Json) :=
  pairs.foldl (fun acc kv => insertKV acc kv.1 kv.2) []

/-- Python truthiness of a `json.loads` value (`if passed:`).  A number is
falsy iff its value is zero; float underflow of tiny exponents is not
modelled. -/
def truthy : Json → Bool
  | .null => false
  | .bool b => b
  | .num _ ip fp _ => !(ip = ['0'] && fp.all (fun c => c = '0'))
  | .nan => true
  | .inf _ => true
  | .str s => !s.isEmpty
  | .arr xs => !xs.isEmpty
  | .obj kvs => !kvs.isEmpty

/-- Python `d.get(k, default)`; raises `AttributeError` when the receiver
is not a dict (the source calls `.get` on whatever `json.loads` returned). -/
def pyGet (j : Json) (k : Chars) (dflt : Json) : Except PyErr Json :=
  match j with
  | .obj kvs => .ok ((assocLookup kvs k).getD dflt)
  | _ => .error .attrError

/-- Python iteration as used by `list.extend(x)`: lists yield elements,
strings yield 1-character strings, dicts yield their keys, everything else
raises `TypeError`. -/
def pyIter : Json → Except PyErr (List Json)
  | .arr xs => .ok xs
  | .str s => .ok (s.map fun c => Json.str [c])
  | .obj kvs => .ok (kvs.map fun kv => Json.str kv.1)
  | _ => .error .typeError

def hexVal (c : Char) : Option Nat :=
  if c.isDigit then some (c.toNat - 48)
  else if 'a' ≤ c ∧ c ≤ 'f' then some (c.toNat - 87)
  else if 'A' ≤ c ∧ c ≤ 'F' then some (c.toNat - 55)
  else none

def escChar (c : Char) : Option Char :=
  if c = '"' then some '"'
  else if c = '\\' then some '\\'
  else if c = '/' then some '/'
  else if c = 'b' then some '\x08'
  else if c = 'f' then some '\x0c'
  else if c = 'n' then some '\n'
  else if c = 'r' then some '\r'
  else if c = 't' then some '\t'
  else none

/-- Body of a JSON string literal (after the opening quote): returns the
decoded content and the remainder after the closing quote.  Unescaped
control characters are rejected, `\xHH`-style escapes follow the JSON
grammar (`\uXXXX` is decoded without surrogate-pair combination). -/
def parseStringBody : Chars → Option (Chars × Chars)
  | [] => none
  | '"' :: rest => some ([], rest)
  | '\\' :: 'u' :: h1 :: h2 :: h3 :: h4 :: rest =>
    match hexVal h1, hexVal h2, hexVal h3, hexVal h4 with
    | some a, some b, some c, some d =>
      (parseStringBody rest).map fun p =>
        (Char.ofNat (4096 * a + 256 * b + 16 * c + d) :: p.1, p.2)
    | _, _, _, _ => none
  | '\\' :: e :: rest =>
    match escChar e with
    | some ec => (parseStringBody rest).map fun p => (ec :: p.1, p.2)
    | none => none
  | c :: rest =>
    if c.toNat < 32 then none
    else (parseStringBody rest).map fun p => (c :: p.1, p.2)

/-- Exponent suffix of a JSON number (or nothing). -/
def parseExpPart (neg : Bool) (ip fp : Chars) (s : Chars) : Option (Json × Chars) :=
  match s with
  | c :: r =>
    if c = 'e' ∨ c = 'E' then
      let sgnR : Chars × Chars :=
        match r with
        | '+' :: rr => (['+'], rr)
        | '-' :: rr => (['-'], rr)
        | _ => ([], r)
      let ds := sgnR.2.takeWhile Char.isDigit
      let r3 := sgnR.2.dropWhile Char.isDigit
      if ds.isEmpty then none
      else some (Json.num neg ip fp (c :: (sgnR.1 ++ ds)), r3)
    else some (Json.num neg ip fp [], s)
  | [] => some (Json.num neg ip fp [], [])

/-- JSON number: optional minus, integer part without leading zeros,
optional fraction, optional exponent. -/
def parseNumber (s : Chars) : Option (Json × Chars) :=
  let negS : Bool × Chars :=
    match s with
    | '-' :: r => (true, r)
    | _ => (false, s)
  let ip := negS.2.takeWhile Char.isDigit
  let r1 := negS.2.dropWhile Char.isDigit
  if ip.isEmpty then none
  else if 1 < ip.length ∧ ip.headD ' ' = '0' then none
  else
    match r1 with
    | '.' :: r2 =>
      let fp := r2.takeWhile Char.isDigit
      let r3 := r2.dropWhile Char.isDigit
      if fp.isEmpty then none else parseExpPart negS.1 ip fp r3
    | _ => parseExpPart negS.1 ip [] r1

mutual

/-- JSON value parser; fuel only bounds recursion depth and is instantiated
generously by `parseDoc`. -/
def parseVal : Nat → Chars → Option (Json × Chars)
  | 0, _ => none
  | f + 1, s =>
    match skipWs s with
    | [] => none
    | c :: rest =>
      if c = '"' then (parseStringBody rest).map fun p => (Json.str p.1, p.2)
      else if c = '\x7b' then
        match skipWs rest with
        | '\x7d' :: r2 => some (Json.obj [], r2)
        | r => (parseMembers f r).map fun p => (Json.obj (buildObj p.1), p.2)
      else if c = '[' then
        match skipWs rest with
        | ']' :: r2 => some (Json.arr [], r2)
        | r => (parseElems f r).map fun p => (Json.arr p.1, p.2)
      else if c = 'n' then
        match rest with
        | 'u' :: 'l' :: 'l' :: r => some (Json.null, r)
        | _ => none
      else if c = 't' then
        match rest with
        | 'r' :: 'u' :: 'e' :: r => some (Json.bool true, r)
        | _ => none
      else if c = 'f' then
        match rest with
        | 'a' :: 'l' :: 's' :: 'e' :: r => some (Json.bool false, r)
        | _ => none
      else if c = 'N' then
        match rest with
        | 'a' :: 'N' :: r => some (Json.nan, r)
        | _ => none
      else if c = 'I' then
        match rest with
        | 'n' :: 'f' :: 'i' :: 'n' :: 'i' :: 't' :: 'y' :: r => some (Json.inf false, r)
        | _ => none
      else if c = '-' then
        match rest with
        | 'I' :: 'n' :: 'f' :: 'i' :: 'n' :: 'i' :: 't' :: 'y' :: r => some (Json.inf true, r)
        | _ => parseNumber (c :: rest)
      else if c.isDigit then parseNumber (c :: rest)
      else none

/-- Non-empty comma-separated array elements up to the closing bracket. -/
def parseElems : Nat → Chars → Option (List Json × Chars)
  | 0, _ => none
  | f + 1, s =>
    match parseVal f s with
    | none => none
    | some (v, r) =>
      match skipWs r with
      | ',' :: r2 => (parseElems f r2).map fun p => (v :: p.1, p.2)
      | ']' :: r2 => some ([v], r2)
      | _ => none

/-- Non-empty comma-separated object members up to the closing brace. -/
def parseMembers : Nat → Chars → Option (List (Chars × Json) × Chars)
  | 0, _ => none
  | f + 1, s =>
    match skipWs s with
    | '"' :: r =>
      match parseStringBody r with
      | none => none
      | some (key, r2) =>
        match skipWs r2 with
        | ':' :: r3 =>
          match parseVal f r3 with
          | none => none
          | some (v, r4) =>
            match skipWs r4 with
            | ',' :: r5 => (parseMembers f r5).map fun p => ((key, v) :: p.1, p.2)
            | '\x7d' :: r5 => some ([(key, v)], r5)
            | _ => none
        | _ => none
    | _ => none

end

/-- Strip surrounding JSON whitespace (what `json.loads` skips before and
after the single document). -/
def jsonTrim (s : Chars) : Chars :=
  ((s.dropWhile isJsonWs).reverse.dropWhile isJsonWs).reverse

/-- Parse one JSON document with nothing but whitespace after it. -/
def parseDoc (s : Chars) : Option Json :=
  match parseVal (2 * s.length + 8) s with
  | some (v, r) => if (skipWs r).isEmpty then some v else none
  | none => none

/-- Python `json.loads` on text: skip surrounding whitespace, parse exactly
one document. -/
def jsonLoads (s : Chars) : Option Json := parseDoc (jsonTrim s)

/-- The scripted generation service used by the testable properties of the
spec: the k-th `gemini_call` of a run returns `script k` (the real service
is an opaque text-in/text-out call, so a deterministic stub is a function
of the call index; prompts carry no information back). -/
structure Env where
  script : Nat → Chars

/-- `gemini_call` wrapper: returns the scripted response for the current
call index and advances the index.  The prompt argument is what the source
sends to the service; the scripted service does not inspect it. -/
def gemini_call (env : Env) (k : Nat) (_prompt : Chars) : Chars × Nat :=
  (env.script k, k + 1)

/-- Approximation of Python `str()` on a parsed JSON value, used only to
interpolate `proposed_answer`/`explanation` into the verifier prompt (which
the scripted service ignores); container and float rendering is inexact. -/
def pyStr : Json → Chars
  | .null => "None".data
  | .bool true => "True".data
  | .bool false => "False".data
  | .num neg ip fp ex =>
    (if neg then ['-'] else []) ++ ip ++ (if fp.isEmpty then [] else '.' :: fp) ++ ex
  | .nan => "nan".data
  | .inf true => "-inf".data
  | .inf false => "inf".data
  | .str s => s
  | .arr _ => "[...]".data
  | .obj _ => "\x7b...\x7d".data

/-- The `[PLANNER]` f-string template (semantically inert here). -/
def plannerPrompt (question : Chars) : Chars :=
  ("\n[PLANNER]\nYou are a planner for small math and logic word problems.\n\nTask:\n- Read the QUESTION.\n- Produce a short numbered plan with 3-6 steps to solve it.\n- Focus on extracting quantities, understanding relationships, computing,\n  checking constraints (like non-negative counts, correct time ranges),\n  and formatting the final answer.\n\nOutput format:\n- Only the numbered plan as plain text, e.g.\n  1. ...\n  2. ...\n  3. ...\n\nQUESTION: ").data
    ++ question ++ "\n".data

/-- The `[EXECUTOR]` f-string template (semantically inert here). -/
def executorPrompt (question plan_text : Chars) : Chars :=
  ("\n[EXECUTOR]\nYou are an executor for math and logic word problems.\n\nYou will be given:\n- QUESTION: the user\x27s problem.\n- PLAN: a numbered plan of steps to solve it.\n\nTask:\n- Follow the PLAN step-by-step.\n- Do the necessary calculations.\n- Keep track of intermediate values.\n- Produce a proposed final answer and a short explanation.\n\nIMPORTANT:\n- Return ONLY valid JSON.\n- Do NOT include any markdown fences or extra text.\n\nJSON schema to return:\n\x7b\n  \"proposed_answer\": \"<short final answer as a string>\",\n  \"explanation\": \"<short explanation including key intermediate steps>\",\n  \"intermediate\": \x7b\n    \"notes\": \"<optional free-form notes or parsed info>\"\n  \x7d\n\x7d\n\nQUESTION: ").data
    ++ question ++ "\n\nPLAN:\n".data ++ plan_text ++ "\n".data

/-- The `[VERIFIER]` f-string template (semantically inert here). -/
def verifierPrompt (question proposed_answer explanation : Chars) : Chars :=
  ("\n[VERIFIER]\nYou are a strict verifier for math and logic word problems.\n\nYou will be given:\n- QUESTION: the original problem.\n- PROPOSED_ANSWER: the answer string.\n- EXPLANATION: a short explanation with intermediate reasoning.\n\nYour job:\n- Check if the explanation actually solves the QUESTION.\n- Check if the arithmetic and logical steps are correct.\n- Check if constraints (time ranges, non-negative counts, totals) are satisfied.\n- Decide whether the solution is acceptable.\n\nVERY IMPORTANT:\n- Return exactly ONE JSON object.\n- Do NOT repeat any part of the JSON.\n- Do NOT repeat checks.\n- Do NOT add any text before or after the JSON.\n- Do NOT include markdown like ```json ... ```.\n\nOutput:\nReturn ONLY valid JSON with this schema:\n\x7b\n  \"passed\": true or false,\n  \"checks\": [\n    \x7b\n      \"check_name\": \"<short name of this check>\",\n      \"passed\": true or false,\n      \"details\": \"<one-line description>\"\n    \x7d\n  ],\n  \"issues\": \"<short description of problems if any, empty string if none>\"\x7d\n\nQUESTION: ").data
    ++ question ++ "\nPROPOSED_ANSWER: ".data ++ proposed_answer
    ++ "\nEXPLANATION: ".data ++ explanation ++ "\n".data

def answerKey : Chars := "proposed_answer".data
def explKey : Chars := "explanation".data
def passedKey : Chars := "passed".data
def checksKey : Chars := "checks".data
def successStatus : Chars := "success".data
def failedStatus : Chars := "failed".data

/-- The fixed user-visible failure sentence of the exhausted branch. -/
def failMessage : Chars :=
  "The agent could not find a consistent solution after verification.".data

def fenceJsonPat : Chars := "```json".data
def fencePat : Chars := "```".data

/-- `raw.replace("```json", "").replace("```", "")` from `execute` and
`verify_llm`. -/
def stripFences (s : Chars) : Chars := pyRemove fencePat (pyRemove fenceJsonPat s)

/-- `plan(question)`: one gemini call, response returned `.strip()`-ped. -/
def plan (env : Env) (k : Nat) (question : Chars) : Chars × Nat :=
  let rk := gemini_call env k (plannerPrompt question)
  (pyStrip rk.1, rk.2)

/-- `execute(question, plan_text)`: one gemini call, `.strip()`, fence
markers removed, then `json.loads` (its failure is the propagating
`json.JSONDecodeError`). -/
def execute (env : Env) (k : Nat) (question plan_text : Chars) :
    Except PyErr (Json × Nat) :=
  let rk := gemini_call env k (executorPrompt question plan_text)
  match jsonLoads (stripFences (pyStrip rk.1)) with
  | some j => .ok (j, rk.2)
  | none => .error .jsonDecodeError

/-- `verify_llm(question, exec_result)`: reads `proposed_answer` and
`explanation` via `.get` (an `AttributeError` if `exec_result` is not a
dict), then one gemini call, `.strip()`, fence removal, `json.loads`. -/
def verify_llm (env : Env) (k : Nat) (question : Chars) (exec_result : Json) :
    Except PyErr (Json × Nat) :=
  match pyGet exec_result answerKey (.str []) with
  | .error e => .error e
  | .ok pa =>
    match pyGet exec_result explKey (.str []) with
    | .error e => .error e
    | .ok expl =>
      let rk := gemini_call env k (verifierPrompt question (pyStr pa) (pyStr expl))
      match jsonLoads (stripFences (pyStrip rk.1)) with
      | some j => .ok (j, rk.2)
      | none => .error .jsonDecodeError

/-- `summarize_short(exec_result)`: `exec_result.get("explanation", "")`
then `.strip()[:250]`; calling `.strip()` on a non-string explanation is an
`AttributeError`. -/
def summarize_short (exec_result : Json) : Except PyErr Chars :=
  match pyGet exec_result explKey (.str []) with
  | .error e => .error e
  | .ok j =>
    match j with
    | .str s => .ok ((pyStrip s).take 250)
    | _ => .error .attrError

/-- The mutable `metadata` dict of `solve`. -/
structure Metadata where
  plan : Option Chars
  checks : List Json
  retries : Nat
deriving Repr

/-- The JSON-shaped return value of `solve`. -/
structure FinalResult where
  answer : Json
  status : Chars
  reasoning_visible_to_user : Chars
  metadata : Metadata
deriving Repr

def initMetadata : Metadata := ⟨none, [], 0⟩

/-- The `for attempt in range(max_retries + 1)` loop of `solve`:
`rem` is the number of iterations left, `attempt` the current 0-based
index, `k` the gemini call counter, `md` the accumulated metadata.  The
body mirrors the source statements in order; falling off the loop returns
the fixed failure result. -/
def solveGo (env : Env) (question : Chars) :
    Nat → Nat → Nat → Metadata → Except PyErr FinalResult
  | 0, _, _, md => .ok ⟨.str [], failedStatus, failMessage, md⟩
  | rem + 1, attempt, k, md =>
    let md1 : Metadata := { md with retries := attempt }
    let pk := plan env k question
    let md2 : Metadata := { md1 with plan := some pk.1 }
    match execute env pk.2 question pk.1 with
    | .error e => .error e
    | .ok (exec_result, k2) =>
      match verify_llm env k2 question exec_result with
      | .error e => .error e
      | .ok (verify_result, k3) =>
        match pyGet verify_result checksKey (.arr []) with
        | .error e => .error e
        | .ok cj =>
          match pyIter cj with
          | .error e => .error e
          | .ok cs =>
            let md3 : Metadata := { md2 with checks := md2.checks ++ cs }
            match pyGet verify_result passedKey (.bool false) with
            | .error e => .error e
            | .ok p =>
              if truthy p then
                match pyGet exec_result answerKey (.str []) with
                | .error e => .error e
                | .ok a =>
                  match summarize_short exec_result with
                  | .error e => .error e
                  | .ok vis => .ok ⟨a, successStatus, vis, md3⟩
              else
                solveGo env question rem (attempt + 1) k3 md3

/-- `solve(question, max_retries)`. -/
def solve (env : Env) (question : Chars) (max_retries : Nat) :
    Except PyErr FinalResult :=
  solveGo env question (max_retries + 1) 0 0 initMetadata

/-- The plan text attempt `i` stores in the metadata (gemini call `3*i`). -/
def planTextAt (env : Env) (i : Nat) : Chars := pyStrip (env.script (3 * i))

/-- What `execute` parses on attempt `i` (gemini call `3*i + 1`). -/
def execRespAt (env : Env) (i : Nat) : Option Json :=
  jsonLoads (stripFences (pyStrip (env.script (3 * i + 1))))

/-- What `verify_llm` parses on attempt `i` (gemini call `3*i + 2`). -/
def verifyRespAt (env : Env) (i : Nat) : Option Json :=
  jsonLoads (stripFences (pyStrip (env.script (3 * i + 2))))

/-- The effectful skeleton of one loop iteration, in source order: executor
parse, the two `.get`s of `verify_llm`, verifier parse, `checks` lookup and
`extend`, `passed` lookup; yields the attempt's `exec_result`, the checks
appended to the metadata, and the truthiness of `passed`. -/
def attemptOutcome (env : Env) (i : Nat) : Except PyErr (Json × List Json × Bool) :=
  match execRespAt env i with
  | none => .error .jsonDecodeError
  | some er =>
    match pyGet er answerKey (.str []) with
    | .error e => .error e
    | .ok _ =>
      match pyGet er explKey (.str []) with
      | .error e => .error e
      | .ok _ =>
        match verifyRespAt env i with
        | none => .error .jsonDecodeError
        | some vr =>
          match pyGet vr checksKey (.arr []) with
          | .error e => .error e
          | .ok cj =>
            match pyIter cj with
            | .error e => .error e
            | .ok cs =>
              match pyGet vr passedKey (.bool false) with
              | .error e => .error e
              | .ok p => .ok (er, cs, truthy p)

/-- Total-function view of a successful `pyGet`. -/
def getAttr (j : Json) (k : Chars) (dflt : Json) : Json :=
  match pyGet j k dflt with
  | .ok v => v
  | .error _ => dflt

/-- Concatenation of the checks contributed by attempts
`start, start+1, ..., start+n-1` (an attempt with a failed outcome
contributes nothing; under the hypotheses of the theorems below all
relevant outcomes are `.ok`). -/
def checksConcat (env : Env) : Nat → Nat → List Json
  | _, 0 => []
  | start, n + 1 =>
    (match attemptOutcome env start with
     | .ok (_, cs, _) => cs
     | .error _ => []) ++ checksConcat env (start + 1) n

/-! Properties of the Python string primitives. -/

theorem pyRemoveF_fuelIrrel (pat : Chars) :
    ∀ f g s, s.length ≤ f → s.length ≤ g → pyRemoveF pat f s = pyRemoveF pat g s := by
  intro f
  induction f with
  | zero =>
    intro g s hf _
    have hs : s = [] := List.length_eq_zero.mp (Nat.le_zero.mp hf)
    subst hs
    cases g <;> rfl
  | succ f ih =>
    intro g s hf hg
    cases s with
    | nil => cases g <;> rfl
    | cons c cs =>
      cases g with
      | zero => simp at hg
      | succ g' =>
        simp only [pyRemoveF]
        by_cases h : pat ≠ [] ∧ pat <+: (c :: cs)
        · rw [if_pos h, if_pos h]
          have hlen : pat.length ≥ 1 := by
            cases pat with
            | nil => exact absurd rfl h.1
            | cons _ _ => simp
          have hd : (List.drop pat.length (c :: cs)).length ≤ cs.length := by
            simp only [List.length_drop, List.length_cons]
            omega
          simp only [List.length_cons] at hf hg
          exact ih g' (List.drop pat.length (c :: cs)) (by omega) (by omega)
        · rw [if_neg h, if_neg h]
          simp only [List.length_cons] at hf hg
          exact congrArg (c :: ·) (ih g' cs (by omega) (by omega))

theorem pyRemove_cons_pos (pat : Chars) (c : Char) (cs : Chars)
    (hp : pat ≠ []) (h : pat <+: (c :: cs)) :
    pyRemove pat (c :: cs) = pyRemove pat (List.drop pat.length (c :: cs)) := by
  have hlen : 1 ≤ pat.length := by
    cases pat with
    | nil => exact absurd rfl hp
    | cons _ _ => simp
  unfold pyRemove
  simp only [List.length_cons, pyRemoveF]
  rw [if_pos ⟨hp, h⟩]
  exact pyRemoveF_fuelIrrel pat cs.length (List.drop pat.length (c :: cs)).length _
    (by simp only [List.length_drop, List.length_cons]; omega) (Nat.le_refl _)

theorem pyRemove_cons_neg (pat : Chars) (c : Char) (cs : Chars)
    (h : ¬(pat ≠ [] ∧ pat <+: (c :: cs))) :
    pyRemove pat (c :: cs) = c :: pyRemove pat cs := by
  unfold pyRemove
  simp only [List.length_cons, pyRemoveF]
  rw [if_neg h]

theorem pyRemove_cons_head_ne (pat : Chars) (hp : pat ≠ []) (c : Char) (cs : Chars)
    (hc : c ∉ pat) :
    pyRemove pat (c :: cs) = c :: pyRemove pat cs := by
  apply pyRemove_cons_neg
  rintro ⟨_, hpre⟩
  cases pat with
  | nil => exact hp rfl
  | cons p ps =>
    have hpc : p = c := (List.cons_prefix_cons.mp hpre).1
    exact hc (hpc ▸ List.mem_cons_self p ps)

theorem pyRemove_append_left (pat rest : Chars) (hp : pat ≠ []) :
    pyRemove pat (pat ++ rest) = pyRemove pat rest := by
  cases pat with
  | nil => exact absurd rfl hp
  | cons p ps =>
    rw [List.cons_append]
    rw [pyRemove_cons_pos (p :: ps) p (ps ++ rest) hp
      (by rw [← List.cons_append]; exact List.prefix_append _ _)]
    congr 1
    rw [← List.cons_append]
    exact List.drop_left _ rest

theorem pyRemove_of_length_lt (pat : Chars) :
    ∀ s : Chars, s.length < pat.length → pyRemove pat s = s := by
  intro s
  induction s with
  | nil => intro _; rfl
  | cons c cs ih =>
    intro h
    have hnp : ¬ pat <+: (c :: cs) := fun hpre => absurd hpre.length_le (by omega)
    rw [pyRemove_cons_neg pat c cs (by tauto)]
    rw [ih (by simp only [List.length_cons] at h; omega)]

/-- Key decomposition: deleting a non-empty pattern from `a ++ d :: b`
where the separator `d` does not occur in the pattern splits into the two
sides, because no occurrence of the pattern can span `d`. -/
theorem pyRemove_append_cons (pat : Chars) (hp : pat ≠ []) (d : Char) (hd : d ∉ pat) :
    ∀ a b : Chars, pyRemove pat (a ++ d :: b) = pyRemove pat a ++ d :: pyRemove pat b := by
  have hplen : 1 ≤ pat.length := by
    cases pat with
    | nil => exact absurd rfl hp
    | cons _ _ => simp
  have main : ∀ n (a : Chars), a.length ≤ n → ∀ b,
      pyRemove pat (a ++ d :: b) = pyRemove pat a ++ d :: pyRemove pat b := by
    intro n
    induction n with
    | zero =>
      intro a ha b
      have hnil : a = [] := List.length_eq_zero.mp (Nat.le_zero.mp ha)
      subst hnil
      simp only [List.nil_append]
      rw [pyRemove_cons_head_ne pat hp d b hd]
      rfl
    | succ n ih =>
      intro a ha b
      cases a with
      | nil =>
        simp only [List.nil_append]
        rw [pyRemove_cons_head_ne pat hp d b hd]
        rfl
      | cons c a' =>
        by_cases hpre : pat <+: ((c :: a') ++ d :: b)
        · have hle : pat.length ≤ (c :: a').length := by
            by_contra hgt
            have h1 : (c :: a') ++ [d] <+: (c :: a') ++ d :: b :=
              ⟨b, by simp⟩
            have h2 : (c :: a') ++ [d] <+: pat :=
              List.prefix_of_prefix_length_le h1 hpre (by
                simp only [List.length_append, List.length_cons, List.length_nil] at hgt ⊢
                omega)
            exact hd (h2.subset (by simp))
          have hpa : pat <+: (c :: a') :=
            List.prefix_of_prefix_length_le hpre (List.prefix_append _ _) hle
          obtain ⟨arest, harest⟩ := hpa
          have halen : arest.length ≤ n := by
            have := congrArg List.length harest
            simp only [List.length_append, List.length_cons] at this ha
            omega
          calc pyRemove pat ((c :: a') ++ d :: b)
              = pyRemove pat (pat ++ (arest ++ d :: b)) := by
                rw [← harest, List.append_assoc]
            _ = pyRemove pat (arest ++ d :: b) := pyRemove_append_left pat _ hp
            _ = pyRemove pat arest ++ d :: pyRemove pat b := ih arest halen b
            _ = pyRemove pat (pat ++ arest) ++ d :: pyRemove pat b := by
                rw [pyRemove_append_left pat arest hp]
            _ = pyRemove pat (c :: a') ++ d :: pyRemove pat b := by rw [harest]
        · have h2 : ¬ pat <+: (c :: a') := fun hx =>
            hpre (hx.trans (List.prefix_append (c :: a') (d :: b)))
          have ha' : a'.length ≤ n := by
            simp only [List.length_cons] at ha
            omega
          rw [List.cons_append]
          rw [pyRemove_cons_neg pat c (a' ++ d :: b) (by
            rw [← List.cons_append]
            tauto)]
          rw [ih a' ha' b]
          rw [pyRemove_cons_neg pat c a' (by tauto)]
          rfl
  intro a b
  exact main a.length a (Nat.le_refl _) b

/-- A string containing no character of the pattern is untouched. -/
theorem pyRemove_of_disjoint (pat : Chars) (hp : pat ≠ []) :
    ∀ s : Chars, (∀ c ∈ s, c ∉ pat) → pyRemove pat s = s := by
  intro s
  induction s with
  | nil => intro _; rfl
  | cons c cs ih =>
    intro h
    rw [pyRemove_cons_head_ne pat hp c cs (h c (by simp))]
    rw [ih fun x hx => h x (by simp [hx])]

/-- `str.strip()` does nothing when both ends are non-whitespace. -/
theorem pyStrip_sandwich (a b : Char) (s : Chars)
    (ha : isPyWs a = false) (hb : isPyWs b = false) :
    pyStrip (a :: (s ++ [b])) = a :: (s ++ [b]) := by
  unfold pyStrip
  rw [List.dropWhile_cons, ha]
  simp only [Bool.false_eq_true, if_false]
  rw [show (a :: (s ++ [b])).reverse = b :: (s.reverse ++ [a]) from by simp]
  rw [List.dropWhile_cons, hb]
  simp only [Bool.false_eq_true, if_false]
  simp

/-- `json.loads` level whitespace trim is unaffected by one newline on each
side. -/
theorem jsonTrim_newline_wrap (s : Chars) :
    jsonTrim ('\n' :: (s ++ ['\n'])) = jsonTrim s := by
  unfold jsonTrim
  rw [List.dropWhile_cons]
  norm_num [isJsonWs]
  rw [List.dropWhile_append]
  by_cases h : (s.dropWhile isJsonWs).isEmpty
  · rw [if_pos h]
    rw [List.isEmpty_iff.mp h]
    simp [List.dropWhile, isJsonWs]
  · rw [if_neg h]
    rw [show (s.dropWhile isJsonWs ++ ['\n']).reverse
        = '\n' :: (s.dropWhile isJsonWs).reverse from by simp]
    rw [List.dropWhile_cons]
    norm_num [isJsonWs]

def fenceWrapJson (J : Chars) : Chars := "```json\n".data ++ J ++ "\n```".data

def fenceWrapPlain (J : Chars) : Chars := "```\n".data ++ J ++ "\n```".data

theorem pyStrip_fenceWrapJson (J : Chars) :
    pyStrip (fenceWrapJson J) = fenceWrapJson J := by
  have hshape : fenceWrapJson J
      = '`' :: (("``json\n".data ++ J ++ "\n``".data) ++ ['`']) := by
    unfold fenceWrapJson
    rw [show ("```json\n".data : Chars) = '`' :: "``json\n".data from rfl,
        show ("\n```".data : Chars) = "\n``".data ++ ['`'] from rfl]
    simp [List.append_assoc]
  rw [hshape, pyStrip_sandwich '`' '`' _ (by decide) (by decide)]

theorem pyStrip_fenceWrapPlain (J : Chars) :
    pyStrip (fenceWrapPlain J) = fenceWrapPlain J := by
  have hshape : fenceWrapPlain J
      = '`' :: (("``\n".data ++ J ++ "\n``".data) ++ ['`']) := by
    unfold fenceWrapPlain
    rw [show ("```\n".data : Chars) = '`' :: "``\n".data from rfl,
        show ("\n```".data : Chars) = "\n``".data ++ ['`'] from rfl]
    simp [List.append_assoc]
  rw [hshape, pyStrip_sandwich '`' '`' _ (by decide) (by decide)]

theorem stripFences_fenceWrapJson (J : Chars) :
    stripFences (fenceWrapJson J) = '\n' :: (stripFences J ++ ['\n']) := by
  unfold stripFences fenceWrapJson
  rw [show ("```json\n".data : Chars) = fenceJsonPat ++ ['\n'] from rfl,
      show ("\n```".data : Chars) = '\n' :: "```".data from rfl]
  rw [List.append_assoc, List.append_assoc]
  rw [show (['\n'] ++ (J ++ '\n' :: "```".data) : Chars)
      = '\n' :: (J ++ '\n' :: "```".data) from rfl]
  rw [pyRemove_append_left fenceJsonPat _ (by decide)]
  rw [show ('\n' :: (J ++ '\n' :: "```".data) : Chars)
      = [] ++ '\n' :: (J ++ '\n' :: "```".data) from rfl]
  rw [pyRemove_append_cons fenceJsonPat (by decide) '\n' (by decide) [] _]
  rw [pyRemove_append_cons fenceJsonPat (by decide) '\n' (by decide) J "```".data]
  rw [pyRemove_of_length_lt fenceJsonPat "```".data (by decide)]
  rw [show (pyRemove fenceJsonPat [] ++ '\n'
        :: (pyRemove fenceJsonPat J ++ '\n' :: "```".data) : Chars)
      = [] ++ '\n' :: (pyRemove fenceJsonPat J ++ '\n' :: "```".data) from rfl]
  rw [pyRemove_append_cons fencePat (by decide) '\n' (by decide) [] _]
  rw [pyRemove_append_cons fencePat (by decide) '\n' (by decide) _ "```".data]
  rw [show pyRemove fencePat "```".data = [] from by
    rw [show ("```".data : Chars) = fencePat ++ [] from by rfl]
    rw [pyRemove_append_left fencePat [] (by decide)]
    rfl]
  rfl

theorem stripFences_fenceWrapPlain (J : Chars) :
    stripFences (fenceWrapPlain J) = '\n' :: (stripFences J ++ ['\n']) := by
  unfold stripFences fenceWrapPlain
  rw [show ("```\n".data : Chars) = "```".data ++ ['\n'] from rfl,
      show ("\n```".data : Chars) = '\n' :: "```".data from rfl]
  rw [List.append_assoc, List.append_assoc]
  rw [show (['\n'] ++ (J ++ '\n' :: "```".data) : Chars)
      = '\n' :: (J ++ '\n' :: "```".data) from rfl]
  rw [show ("```".data ++ '\n' :: (J ++ '\n' :: "```".data) : Chars)
      = "```".data ++ '\n' :: (J ++ '\n' :: "```".data) from rfl]
  rw [pyRemove_append_cons fenceJsonPat (by decide) '\n' (by decide) "```".data _]
  rw [pyRemove_append_cons fenceJsonPat (by decide) '\n' (by decide) J "```".data]
  rw [pyRemove_of_length_lt fenceJsonPat "```".data (by decide)]
  rw [show ("```".data : Chars) = fencePat from rfl]
  rw [pyRemove_append_left fencePat _ (by decide)]
  rw [show ('\n' :: (pyRemove fenceJsonPat J ++ '\n' :: fencePat) : Chars)
      = [] ++ '\n' :: (pyRemove fenceJsonPat J ++ '\n' :: fencePat) from rfl]
  rw [pyRemove_append_cons fencePat (by decide) '\n' (by decide) [] _]
  rw [pyRemove_append_cons fencePat (by decide) '\n' (by decide) _ fencePat]
  rw [show pyRemove fencePat fencePat = [] from by
    have h := pyRemove_append_left fencePat [] (by decide)
    rw [List.append_nil] at h
    rw [h]
    rfl]
  rfl

theorem jsonLoads_newline_wrap (s : Chars) :
    jsonLoads ('\n' :: (s ++ ['\n'])) = jsonLoads s := by
  unfold jsonLoads
  rw [jsonTrim_newline_wrap]

/-- `execute` unfolded over the scripted service. -/
theorem execute_eq (env : Env) (k : Nat) (q pt : Chars) :
    execute env k q pt =
      match jsonLoads (stripFences (pyStrip (env.script k))) with
      | some j => .ok (j, k + 1)
      | none => .error .jsonDecodeError := rfl

/-- `verify_llm` unfolded over the scripted service. -/
theorem verify_llm_eq (env : Env) (k : Nat) (q : Chars) (er : Json) :
    verify_llm env k q er =
      match pyGet er answerKey (.str []) with
      | .error e => .error e
      | .ok _ =>
        match pyGet er explKey (.str []) with
        | .error e => .error e
        | .ok _ =>
          match jsonLoads (stripFences (pyStrip (env.script k))) with
          | some j => .ok (j, k + 1)
          | none => .error .jsonDecodeError := by
  unfold verify_llm
  cases pyGet er answerKey (Json.str []) with
  | error e => rfl
  | ok pa =>
    cases pyGet er explKey (Json.str []) with
    | error e => rfl
    | ok expl => rfl

/-- One iteration of the loop, phrased through the script-level attempt
outcome; the gemini call counter entering attempt `i` is always `3*i`. -/
theorem solveGo_step (env : Env) (q : Chars) (rem attempt : Nat) (md : Metadata) :
    solveGo env q (rem + 1) attempt (3 * attempt) md =
      match attemptOutcome env attempt with
      | .error e => .error e
      | .ok (er, cs, b) =>
        let md3 : Metadata :=
          { md with retries := attempt, plan := some (planTextAt env attempt),
                    checks := md.checks ++ cs }
        if b then
          match summarize_short er with
          | .error e => .error e
          | .ok vis => .ok ⟨getAttr er answerKey (.str []), successStatus, vis, md3⟩
        else solveGo env q rem (attempt + 1) (3 * attempt + 3) md3 := by
  simp only [solveGo]
  rw [show plan env (3 * attempt) q = (planTextAt env attempt, 3 * attempt + 1) from rfl]
  rw [execute_eq]
  unfold attemptOutcome
  rw [show jsonLoads (stripFences (pyStrip (env.script (3 * attempt + 1))))
      = execRespAt env attempt from rfl]
  cases hE : execRespAt env attempt with
  | none => rfl
  | some er =>
    simp only
    rw [verify_llm_eq]
    cases hpa : pyGet er answerKey (Json.str []) with
    | error e => rfl
    | ok pa =>
      simp only
      cases hex : pyGet er explKey (Json.str []) with
      | error e => rfl
      | ok expl =>
        simp only
        rw [show jsonLoads (stripFences (pyStrip (env.script (3 * attempt + 1 + 1))))
            = verifyRespAt env attempt from rfl]
        cases hV : verifyRespAt env attempt with
        | none => rfl
        | some vr =>
          simp only
          cases hcj : pyGet vr checksKey (Json.arr []) with
          | error e => rfl
          | ok cj =>
            simp only
            cases hci : pyIter cj with
            | error e => rfl
            | ok cs =>
              simp only
              cases hp : pyGet vr passedKey (Json.bool false) with
              | error e => rfl
              | ok p =>
                simp only
                by_cases ht : truthy p = true
                · rw [if_pos ht, if_pos ht]
                  simp [getAttr, hpa]
                · rw [if_neg ht, if_neg ht]

theorem checksConcat_succ (env : Env) (start n : Nat) (er : Json) (cs : List Json) (b : Bool)
    (h : attemptOutcome env start = .ok (er, cs, b)) :
    checksConcat env start (n + 1) = cs ++ checksConcat env (start + 1) n := by
  simp only [checksConcat, h]

/-- A successful attempt outcome entails that the `proposed_answer` lookup
on its `exec_result` succeeds (the attempt already performed it). -/
theorem attemptOutcome_ok_answer (env : Env) (i : Nat) (er : Json) (cs : List Json) (b : Bool)
    (h : attemptOutcome env i = .ok (er, cs, b)) :
    pyGet er answerKey (.str []) = .ok (getAttr er answerKey (.str [])) := by
  unfold attemptOutcome at h
  cases hE : execRespAt env i with
  | none => rw [hE] at h; exact absurd h (by simp)
  | some er0 =>
    simp only [hE] at h
    cases hpa : pyGet er0 answerKey (Json.str []) with
    | error e => simp only [hpa] at h; exact absurd h (by simp)
    | ok pa =>
      simp only [hpa] at h
      cases hex : pyGet er0 explKey (Json.str []) with
      | error e => simp only [hex] at h; exact absurd h (by simp)
      | ok expl =>
        simp only [hex] at h
        cases hV : verifyRespAt env i with
        | none => simp only [hV] at h; exact absurd h (by simp)
        | some vr =>
          simp only [hV] at h
          cases hcj : pyGet vr checksKey (Json.arr []) with
          | error e => simp only [hcj] at h; exact absurd h (by simp)
          | ok cj =>
            simp only [hcj] at h
            cases hci : pyIter cj with
            | error e => simp only [hci] at h; exact absurd h (by simp)
            | ok cs0 =>
              simp only [hci] at h
              cases hp : pyGet vr passedKey (Json.bool false) with
              | error e => simp only [hp] at h; exact absurd h (by simp)
              | ok p =>
                simp only [hp, Except.ok.injEq, Prod.mk.injEq] at h
                obtain ⟨her, -, -⟩ := h
                subst her
                rw [hpa]
                simp [getAttr, hpa]

/-- Master characterization of the loop: a returned `FinalResult` comes
either from a zero-iteration call or from a decisive attempt `attempt + j`
whose earlier attempts all completed with a falsy `passed`; the metadata
fields and the user-facing fields are determined by that attempt. -/
theorem solveGo_master (env : Env) (q : Chars) :
    ∀ (n attempt : Nat) (md : Metadata) (r : FinalResult),
      solveGo env q n attempt (3 * attempt) md = .ok r →
      (n = 0 ∧ r = ⟨.str [], failedStatus, failMessage, md⟩) ∨
      ∃ j er cs b, j < n ∧
        (∀ t, t < j → ∃ er' cs', attemptOutcome env (attempt + t) = .ok (er', cs', false)) ∧
        attemptOutcome env (attempt + j) = .ok (er, cs, b) ∧
        r.metadata.retries = attempt + j ∧
        r.metadata.plan = some (planTextAt env (attempt + j)) ∧
        r.metadata.checks = md.checks ++ checksConcat env attempt (j + 1) ∧
        (b = true →
          r.status = successStatus ∧
          pyGet er answerKey (.str []) = .ok r.answer ∧
          summarize_short er = .ok r.reasoning_visible_to_user) ∧
        (b = false →
          j + 1 = n ∧ r.status = failedStatus ∧ r.answer = .str [] ∧
          r.reasoning_visible_to_user = failMessage) := by
  intro n
  induction n with
  | zero =>
    intro attempt md r h
    simp only [solveGo, Except.ok.injEq] at h
    exact Or.inl ⟨rfl, h.symm⟩
  | succ n ih =>
    intro attempt md r h
    rw [solveGo_step] at h
    cases hO : attemptOutcome env attempt with
    | error e => rw [hO] at h; exact absurd h (by simp)
    | ok tup =>
      obtain ⟨er, cs, b⟩ := tup
      rw [hO] at h
      dsimp only at h
      cases b with
      | true =>
        rw [if_pos rfl] at h
        cases hs : summarize_short er with
        | error e => rw [hs] at h; exact absurd h (by simp)
        | ok vis =>
          rw [hs] at h
          simp only [Except.ok.injEq] at h
          subst h
          refine Or.inr ⟨0, er, cs, true, Nat.succ_pos n, ?_, ?_, ?_, ?_, ?_, ?_, ?_⟩
          · intro t ht
            exact absurd ht (Nat.not_lt_zero t)
          · exact hO
          · rfl
          · rfl
          · rw [checksConcat_succ env attempt 0 er cs true hO]
            simp [checksConcat]
          · intro _
            exact ⟨rfl, attemptOutcome_ok_answer env attempt er cs true hO, hs⟩
          · intro hb
            exact absurd hb (by simp)
      | false =>
        rw [if_neg (by simp)] at h
        rw [show 3 * attempt + 3 = 3 * (attempt + 1) from by omega] at h
        rcases ih (attempt + 1) _ r h with ⟨hn0, hr⟩ | hrec
        · subst hn0
          subst hr
          refine Or.inr ⟨0, er, cs, false, Nat.succ_pos 0, ?_, ?_, ?_, ?_, ?_, ?_, ?_⟩
          · intro t ht
            exact absurd ht (Nat.not_lt_zero t)
          · exact hO
          · rfl
          · rfl
          · rw [checksConcat_succ env attempt 0 er cs false hO]
            simp [checksConcat]
          · intro hb
            exact absurd hb (by simp)
          · intro _
            exact ⟨rfl, rfl, rfl, rfl⟩
        · obtain ⟨j', er', cs', b', hj', hprev, hout, hret, hplan, hchecks, hsucc, hfail⟩ := hrec
          refine Or.inr ⟨j' + 1, er', cs', b', by omega, ?_, ?_, ?_, ?_, ?_, hsucc, ?_⟩
          · intro t ht
            cases t with
            | zero =>
              rw [Nat.add_zero]
              exact ⟨er, cs, hO⟩
            | succ t' =>
              rw [show attempt + (t' + 1) = attempt + 1 + t' from by omega]
              exact hprev t' (by omega)
          · rw [show attempt + (j' + 1) = attempt + 1 + j' from by omega]
            exact hout
          · rw [hret]
            omega
          · rw [hplan, show attempt + 1 + j' = attempt + (j' + 1) from by omega]
          · rw [hchecks]
            rw [checksConcat_succ env attempt (j' + 1) er cs false hO]
            simp [List.append_assoc]
          · intro hb
            obtain ⟨hjn, h1, h2, h3⟩ := hfail hb
            exact ⟨by omega, h1, h2, h3⟩

/-- Full inversion of a successful attempt outcome into its script-level
ingredients. -/
theorem attemptOutcome_ok_inv (env : Env) (i : Nat) (er : Json) (cs : List Json) (b : Bool)
    (h : attemptOutcome env i = .ok (er, cs, b)) :
    execRespAt env i = some er ∧
    ∃ vr cj p, verifyRespAt env i = some vr ∧
      pyGet vr checksKey (.arr []) = .ok cj ∧ pyIter cj = .ok cs ∧
      pyGet vr passedKey (.bool false) = .ok p ∧ truthy p = b := by
  unfold attemptOutcome at h
  cases hE : execRespAt env i with
  | none => rw [hE] at h; exact absurd h (by simp)
  | some er0 =>
    simp only [hE] at h
    cases hpa : pyGet er0 answerKey (Json.str []) with
    | error e => simp only [hpa] at h; exact absurd h (by simp)
    | ok pa =>
      simp only [hpa] at h
      cases hex : pyGet er0 explKey (Json.str []) with
      | error e => simp only [hex] at h; exact absurd h (by simp)
      | ok expl =>
        simp only [hex] at h
        cases hV : verifyRespAt env i with
        | none => simp only [hV] at h; exact absurd h (by simp)
        | some vr =>
          simp only [hV] at h
          cases hcj : pyGet vr checksKey (Json.arr []) with
          | error e => simp only [hcj] at h; exact absurd h (by simp)
          | ok cj =>
            simp only [hcj] at h
            cases hci : pyIter cj with
            | error e => simp only [hci] at h; exact absurd h (by simp)
            | ok cs0 =>
              simp only [hci] at h
              cases hp : pyGet vr passedKey (Json.bool false) with
              | error e => simp only [hp] at h; exact absurd h (by simp)
              | ok p =>
                simp only [hp, Except.ok.injEq, Prod.mk.injEq] at h
                obtain ⟨her, hcs, hb⟩ := h
                subst her
                subst hcs
                exact ⟨rfl, vr, cj, p, rfl, hcj, hci, hp, hb⟩

/-- Inversion of a successful `summarize_short`. -/
theorem summarize_short_ok_inv (er : Json) (vis : Chars)
    (h : summarize_short er = .ok vis) :
    ∃ s, pyGet er explKey (.str []) = .ok (.str s) ∧ vis = (pyStrip s).take 250 := by
  unfold summarize_short at h
  cases hexp : pyGet er explKey (Json.str []) with
  | error e => rw [hexp] at h; exact absurd h (by simp)
  | ok j =>
    rw [hexp] at h
    cases j with
    | str s =>
      simp only [Except.ok.injEq] at h
      exact ⟨s, rfl, h.symm⟩
    | null => simp at h
    | bool b => simp at h
    | num a c d e => simp at h
    | nan => simp at h
    | inf a => simp at h
    | arr a => simp at h
    | obj a => simp at h

theorem successStatus_ne_failedStatus : successStatus ≠ failedStatus := by decide

theorem failMessage_length_le : failMessage.length ≤ 250 := by decide

/-- The accumulated checks never shrink, for an arbitrary gemini-call
counter and starting metadata. -/
theorem solveGo_checks_isPrefix (env : Env) (q : Chars) :
    ∀ (n attempt k : Nat) (md : Metadata) (r : FinalResult),
      solveGo env q n attempt k md = .ok r → md.checks <+: r.metadata.checks := by
  intro n
  induction n with
  | zero =>
    intro attempt k md r h
    simp only [solveGo, Except.ok.injEq] at h
    subst h
    exact List.prefix_refl _
  | succ n ih =>
    intro attempt k md r h
    simp only [solveGo] at h
    cases hE : execute env (plan env k q).2 q (plan env k q).1 with
    | error e => rw [hE] at h; exact absurd h (by simp)
    | ok p1 =>
      obtain ⟨er, k2⟩ := p1
      simp only [hE] at h
      cases hV : verify_llm env k2 q er with
      | error e => simp only [hV] at h; exact absurd h (by simp)
      | ok p2 =>
        obtain ⟨vr, k3⟩ := p2
        simp only [hV] at h
        cases hcj : pyGet vr checksKey (Json.arr []) with
        | error e => simp only [hcj] at h; exact absurd h (by simp)
        | ok cj =>
          simp only [hcj] at h
          cases hci : pyIter cj with
          | error e => simp only [hci] at h; exact absurd h (by simp)
          | ok cs =>
            simp only [hci] at h
            cases hp : pyGet vr passedKey (Json.bool false) with
            | error e => simp only [hp] at h; exact absurd h (by simp)
            | ok p =>
              simp only [hp] at h
              by_cases ht : truthy p = true
              · rw [if_pos ht] at h
                cases ha : pyGet er answerKey (Json.str []) with
                | error e => simp only [ha] at h; exact absurd h (by simp)
                | ok a =>
                  simp only [ha] at h
                  cases hs : summarize_short er with
                  | error e => simp only [hs] at h; exact absurd h (by simp)
                  | ok vis =>
                    simp only [hs, Except.ok.injEq] at h
                    subst h
                    exact List.prefix_append md.checks cs
              · rw [if_neg ht] at h
                exact (List.prefix_append md.checks cs).trans (ih (attempt + 1) k3 _ r h)

/-- If every listed attempt contributes at least one check, the
concatenation is at least as long as the number of attempts. -/
theorem checksConcat_length_ge (env : Env) :
    ∀ (n start : Nat),
      (∀ t, t < n → ∃ er cs b, attemptOutcome env (start + t) = .ok (er, cs, b) ∧ cs ≠ []) →
      n ≤ (checksConcat env start n).length := by
  intro n
  induction n with
  | zero => intro start _; simp [checksConcat]
  | succ n ih =>
    intro start hne
    obtain ⟨er, cs, b, hO, hcs⟩ := hne 0 (Nat.succ_pos n)
    have hO' : attemptOutcome env start = .ok (er, cs, b) := hO
    rw [checksConcat_succ env start n er cs b hO']
    have h1 : 1 ≤ cs.length := by
      cases cs with
      | nil => exact absurd rfl hcs
      | cons _ _ => simp
    have h2 := ih (start + 1) (fun t ht => by
      have hx := hne (t + 1) (by omega)
      rw [show start + (t + 1) = start + 1 + t from by omega] at hx
      exact hx)
    simp only [List.length_append]
    omega

/-- A `jsonDecodeError` (or any exception) raised inside attempt
`attempt + j` aborts the whole loop, provided all earlier attempts
completed with a falsy `passed`. -/
theorem solveGo_error_propagates (env : Env) (q : Chars) :
    ∀ (j n attempt : Nat) (md : Metadata) (e : PyErr),
      j < n →
      (∀ t, t < j → ∃ er cs, attemptOutcome env (attempt + t) = .ok (er, cs, false)) →
      attemptOutcome env (attempt + j) = .error e →
      solveGo env q n attempt (3 * attempt) md = .error e := by
  intro j
  induction j with
  | zero =>
    intro n attempt md e hn _ herr
    cases n with
    | zero => omega
    | succ n' =>
      rw [solveGo_step]
      have herr' : attemptOutcome env attempt = .error e := herr
      rw [herr']
  | succ j ih =>
    intro n attempt md e hn hprev herr
    cases n with
    | zero => omega
    | succ n' =>
      rw [solveGo_step]
      obtain ⟨er, cs, hO⟩ := hprev 0 (Nat.succ_pos j)
      have hO' : attemptOutcome env attempt = .ok (er, cs, false) := hO
      rw [hO']
      dsimp only
      rw [if_neg (by simp)]
      rw [show 3 * attempt + 3 = 3 * (attempt + 1) from by omega]
      refine ih n' (attempt + 1) _ e (by omega) ?_ ?_
      · intro t ht
        have hx := hprev (t + 1) (by omega)
        rw [show attempt + (t + 1) = attempt + 1 + t from by omega] at hx
        exact hx
      · rw [show attempt + 1 + j = attempt + (j + 1) from by omega]
        exact herr

/-- C1: whenever `solve` returns a `FinalResult` with status `"success"`,
the deciding (last) attempt's verifier verdict has a truthy top-level
`passed`, and the returned `answer` is exactly that attempt's
`ExecutionResult.proposed_answer` (via the same `.get` the source uses). -/
theorem solve_success_answer (env : Env) (q : Chars) (m : Nat) (r : FinalResult)
    (hok : solve env q m = .ok r) (hs : r.status = successStatus) :
    ∃ er cs vr p,
      execRespAt env r.metadata.retries = some er ∧
      attemptOutcome env r.metadata.retries = .ok (er, cs, true) ∧
      verifyRespAt env r.metadata.retries = some vr ∧
      pyGet vr passedKey (.bool false) = .ok p ∧ truthy p = true ∧
      pyGet er answerKey (.str []) = .ok r.answer := by
  have hm := solveGo_master env q (m + 1) 0 initMetadata r hok
  rcases hm with ⟨hn0, -⟩ | ⟨j, er, cs, b, hj, hprev, hout, hret, hplan, hchecks, hsucc, hfail⟩
  · exact absurd hn0 (Nat.succ_ne_zero m)
  · cases b with
    | false =>
      obtain ⟨-, hstat, -, -⟩ := hfail rfl
      exact absurd (hs.symm.trans hstat) successStatus_ne_failedStatus
    | true =>
      obtain ⟨hstat, hans, hsum⟩ := hsucc rfl
      have hret' : r.metadata.retries = j := by rw [hret]; omega
      obtain ⟨hexecEq, vr, cj, p, hV, hcj, hci, hp, hb⟩ :=
        attemptOutcome_ok_inv env (0 + j) er cs true hout
      refine ⟨er, cs, vr, p, ?_, ?_, ?_, hp, hb, hans⟩
      · rw [hret', show j = 0 + j from by omega]
        exact hexecEq
      · rw [hret', show j = 0 + j from by omega]
        exact hout
      · rw [hret', show j = 0 + j from by omega]
        exact hV

/-- Shape of the returned result when every attempt's verdict was falsy
(helper for the exhaustion claim). -/
theorem solve_exhausted_shape (env : Env) (q : Chars) (m : Nat) (r : FinalResult)
    (hok : solve env q m = .ok r)
    (hfailall : ∀ i, i ≤ m → ∀ er cs b, attemptOutcome env i = .ok (er, cs, b) → b = false) :
    r.status = failedStatus ∧ r.answer = .str [] ∧
    r.reasoning_visible_to_user = failMessage ∧
    r.metadata.retries = m ∧ r.metadata.checks = checksConcat env 0 (m + 1) ∧
    r.metadata.plan = some (planTextAt env m) := by
  have hm := solveGo_master env q (m + 1) 0 initMetadata r hok
  rcases hm with ⟨hn0, -⟩ | ⟨j, er, cs, b, hj, hprev, hout, hret, hplan, hchecks, hsucc, hfail⟩
  · exact absurd hn0 (Nat.succ_ne_zero m)
  · have hbf : b = false := hfailall (0 + j) (by omega) er cs b hout
    subst hbf
    obtain ⟨hjn, hstat, hans, hmsg⟩ := hfail rfl
    have hjm : j = m := by omega
    subst hjm
    refine ⟨hstat, hans, hmsg, by rw [hret]; omega, ?_, ?_⟩
    · exact hchecks.trans (List.nil_append _)
    · rw [hplan, show (0 : Nat) + j = j from by omega]

/-- If every attempt completes with a falsy verdict, the loop cannot raise
or accept: it runs to exhaustion and returns. -/
theorem solveGo_total_of_all_fail (env : Env) (q : Chars) :
    ∀ (n attempt : Nat) (md : Metadata),
      (∀ t, t < n → ∃ er cs, attemptOutcome env (attempt + t) = .ok (er, cs, false)) →
      ∃ r, solveGo env q n attempt (3 * attempt) md = .ok r := by
  intro n
  induction n with
  | zero => exact fun attempt md _ => ⟨⟨.str [], failedStatus, failMessage, md⟩, rfl⟩
  | succ n ih =>
    intro attempt md hall
    obtain ⟨er, cs, hO⟩ := hall 0 (Nat.succ_pos n)
    have hO' : attemptOutcome env attempt = .ok (er, cs, false) := hO
    rw [solveGo_step, hO']
    dsimp only
    rw [if_neg (by simp)]
    rw [show 3 * attempt + 3 = 3 * (attempt + 1) from by omega]
    exact ih (attempt + 1) _ (fun t ht => by
      have hx := hall (t + 1) (by omega)
      rw [show attempt + (t + 1) = attempt + 1 + t from by omega] at hx
      exact hx)

/-- C2: if every attempt's verdict comes back falsy (retries exhausted),
`solve` does return, and returns the fixed failure result: status
`"failed"`, empty answer, exactly the fixed sentence, `retries =
max_retries`, the checks of all attempts accumulated in order, and the last
attempt's plan. -/
theorem solve_exhausted_fixed_failure (env : Env) (q : Chars) (m : Nat)
    (hall : ∀ i, i ≤ m → ∃ er cs, attemptOutcome env i = .ok (er, cs, false)) :
    ∃ r, solve env q m = .ok r ∧
      r.status = failedStatus ∧ r.answer = .str [] ∧
      r.reasoning_visible_to_user = failMessage ∧
      r.metadata.retries = m ∧ r.metadata.checks = checksConcat env 0 (m + 1) ∧
      r.metadata.plan = some (planTextAt env m) := by
  obtain ⟨r, hok⟩ := solveGo_total_of_all_fail env q (m + 1) 0 initMetadata
    (fun t ht => by
      obtain ⟨er, cs, h⟩ := hall t (by omega)
      exact ⟨er, cs, by rw [Nat.zero_add]; exact h⟩)
  refine ⟨r, hok, solve_exhausted_shape env q m r hok ?_⟩
  intro i hi er cs b h
  obtain ⟨er0, cs0, h0⟩ := hall i hi
  have h2 := h0.symm.trans h
  simp only [Except.ok.injEq, Prod.mk.injEq] at h2
  exact h2.2.2.symm

/-- C3: every run that returns performed at most `max_retries + 1`
attempts: `metadata.retries` is the 0-based index of the deciding attempt,
it never exceeds `max_retries`, all earlier attempts completed with a falsy
verdict, and on exhaustion `retries = max_retries` with every attempt
falsy. -/
theorem solve_retries_bounded (env : Env) (q : Chars) (m : Nat) (r : FinalResult)
    (hok : solve env q m = .ok r) :
    r.metadata.retries ≤ m ∧
    (r.status = successStatus ∨ r.status = failedStatus) ∧
    (r.status = successStatus →
      (∃ er cs, attemptOutcome env r.metadata.retries = .ok (er, cs, true)) ∧
      ∀ i, i < r.metadata.retries → ∃ er cs, attemptOutcome env i = .ok (er, cs, false)) ∧
    (r.status = failedStatus →
      r.metadata.retries = m ∧ ∀ i, i ≤ m → ∃ er cs, attemptOutcome env i = .ok (er, cs, false)) := by
  have hm := solveGo_master env q (m + 1) 0 initMetadata r hok
  rcases hm with ⟨hn0, -⟩ | ⟨j, er, cs, b, hj, hprev, hout, hret, hplan, hchecks, hsucc, hfail⟩
  · exact absurd hn0 (Nat.succ_ne_zero m)
  · have hret' : r.metadata.retries = j := by rw [hret]; omega
    cases b with
    | true =>
      obtain ⟨hstat, -, -⟩ := hsucc rfl
      refine ⟨by omega, Or.inl hstat, ?_, ?_⟩
      · intro _
        constructor
        · refine ⟨er, cs, ?_⟩
          rw [hret', show j = 0 + j from by omega]
          exact hout
        · intro i hi
          rw [hret'] at hi
          obtain ⟨er', cs', h'⟩ := hprev i hi
          rw [Nat.zero_add] at h'
          exact ⟨er', cs', h'⟩
      · intro hst
        exact absurd (hstat.symm.trans hst) successStatus_ne_failedStatus
    | false =>
      obtain ⟨hjn, hstat, -, -⟩ := hfail rfl
      have hjm : j = m := by omega
      refine ⟨by omega, Or.inr hstat, ?_, ?_⟩
      · intro hst
        exact absurd (hst.symm.trans hstat) successStatus_ne_failedStatus
      · intro _
        refine ⟨by omega, ?_⟩
        intro i hi
        by_cases hij : i < j
        · obtain ⟨er', cs', h'⟩ := hprev i hij
          rw [Nat.zero_add] at h'
          exact ⟨er', cs', h'⟩
        · have : i = j := by omega
          subst this
          refine ⟨er, cs, ?_⟩
          rw [show i = 0 + i from by omega]
          exact hout

/-- C4: `metadata.checks` is append-only — any ongoing loop state's checks
list is a prefix of the returned one — and when every executed attempt
contributes at least one check, the final list has at least one entry per
executed attempt (`retries + 1` of them). -/
theorem solve_checks_append_only (env : Env) (q : Chars) (m : Nat) (r : FinalResult)
    (hok : solve env q m = .ok r)
    (hne : ∀ i, i ≤ r.metadata.retries →
      ∀ er cs b, attemptOutcome env i = .ok (er, cs, b) → cs ≠ []) :
    (∀ (n attempt k : Nat) (md : Metadata) (rr : FinalResult),
        solveGo env q n attempt k md = .ok rr → md.checks <+: rr.metadata.checks) ∧
    r.metadata.retries + 1 ≤ r.metadata.checks.length := by
  refine ⟨solveGo_checks_isPrefix env q, ?_⟩
  have hm := solveGo_master env q (m + 1) 0 initMetadata r hok
  rcases hm with ⟨hn0, -⟩ | ⟨j, er, cs, b, hj, hprev, hout, hret, hplan, hchecks, hsucc, hfail⟩
  · exact absurd hn0 (Nat.succ_ne_zero m)
  · have hret' : r.metadata.retries = j := by rw [hret]; omega
    have hlen : j + 1 ≤ (checksConcat env 0 (j + 1)).length := by
      apply checksConcat_length_ge env (j + 1) 0
      intro t ht
      by_cases htj : t < j
      · obtain ⟨er', cs', h'⟩ := hprev t htj
        refine ⟨er', cs', false, h', ?_⟩
        apply hne t (by omega) er' cs' false
        rw [Nat.zero_add] at h'
        exact h'
      · have : t = j := by omega
        subst this
        refine ⟨er, cs, b, hout, ?_⟩
        apply hne t (by omega) er cs b
        rw [show t = 0 + t from by omega]
        exact hout
    have hch : r.metadata.checks = checksConcat env 0 (j + 1) :=
      hchecks.trans (List.nil_append _)
    rw [hret', hch]
    exact hlen

/-- C5: a `json.loads` failure inside the executor or verifier of an
attempt (all earlier attempts having completed with falsy verdicts)
escapes `solve` as the uncaught exception: no `FinalResult` is produced and
no further attempt runs. -/
theorem solve_parse_error_aborts (env : Env) (q : Chars) (m i : Nat)
    (him : i ≤ m)
    (hprev : ∀ t, t < i → ∃ er cs, attemptOutcome env t = .ok (er, cs, false))
    (herr : attemptOutcome env i = .error .jsonDecodeError) :
    solve env q m = .error .jsonDecodeError := by
  unfold solve
  refine solveGo_error_propagates env q i (m + 1) 0 initMetadata .jsonDecodeError
    (by omega) ?_ ?_
  · intro t ht
    obtain ⟨er, cs, h⟩ := hprev t ht
    exact ⟨er, cs, by rw [Nat.zero_add]; exact h⟩
  · rw [Nat.zero_add]
    exact herr

/-- C9: the user-visible reasoning of any returned result is at most 250
characters: on failure it is exactly the fixed sentence, on success it is
the stripped explanation hard-truncated to its first 250 characters. -/
theorem solve_reasoning_truncated (env : Env) (q : Chars) (m : Nat) (r : FinalResult)
    (hok : solve env q m = .ok r) :
    r.reasoning_visible_to_user.length ≤ 250 ∧
    (r.status = failedStatus → r.reasoning_visible_to_user = failMessage) ∧
    (r.status = successStatus →
      ∃ er s, execRespAt env r.metadata.retries = some er ∧
        pyGet er explKey (.str []) = .ok (.str s) ∧
        r.reasoning_visible_to_user = (pyStrip s).take 250) := by
  have hm := solveGo_master env q (m + 1) 0 initMetadata r hok
  rcases hm with ⟨hn0, -⟩ | ⟨j, er, cs, b, hj, hprev, hout, hret, hplan, hchecks, hsucc, hfail⟩
  · exact absurd hn0 (Nat.succ_ne_zero m)
  · have hret' : r.metadata.retries = j := by rw [hret]; omega
    cases b with
    | true =>
      obtain ⟨hstat, -, hsum⟩ := hsucc rfl
      obtain ⟨s, hexpl, hvis⟩ := summarize_short_ok_inv er _ hsum
      obtain ⟨hexecEq, -⟩ := attemptOutcome_ok_inv env (0 + j) er cs true hout
      refine ⟨?_, ?_, ?_⟩
      · rw [hvis, List.length_take]
        omega
      · intro hst
        exact absurd (hstat.symm.trans hst) successStatus_ne_failedStatus
      · intro _
        refine ⟨er, s, ?_, hexpl, hvis⟩
        rw [hret', show j = 0 + j from by omega]
        exact hexecEq
    | false =>
      obtain ⟨-, hstat, -, hmsg⟩ := hfail rfl
      refine ⟨?_, fun _ => hmsg, ?_⟩
      · rw [hmsg]
        exact failMessage_length_le
      · intro hst
        exact absurd (hst.symm.trans hstat) successStatus_ne_failedStatus

/-- Environment whose generation service always answers `{}`: valid JSON
with both required `ExecutionResult` fields absent. -/
def envMissingFields : Env := ⟨fun _ => "\x7b\x7d".data⟩

/-- C6 counterexample: on the response `{}` — valid JSON with
`proposed_answer` and `explanation` both absent — `execute` raises nothing
and happily returns the empty record, refuting the claim that a missing
required field makes `execute` fail. -/
theorem execute_missing_fields_accepted :
    execute envMissingFields 0 [] [] = .ok (.obj [], 1) ∧
    assocLookup ([] : List (Chars × Json)) answerKey = none ∧
    assocLookup ([] : List (Chars × Json)) explKey = none :=
  ⟨rfl, rfl, rfl⟩

/-- C6 amended: `execute` raises exactly the parse error, and exactly when
the fence-stripped response is not valid JSON; whatever value parses —
required fields present or not — is returned unvalidated. -/
theorem execute_error_iff_parse_failure (env : Env) (k : Nat) (q pt : Chars) :
    (∀ e, execute env k q pt = .error e ↔
      (jsonLoads (stripFences (pyStrip (env.script k))) = none ∧ e = .jsonDecodeError)) ∧
    (∀ j, jsonLoads (stripFences (pyStrip (env.script k))) = some j →
      execute env k q pt = .ok (j, k + 1)) := by
  constructor
  · intro e
    rw [execute_eq]
    cases h : jsonLoads (stripFences (pyStrip (env.script k))) with
    | none => simp [eq_comm]
    | some j => simp
  · intro j hj
    rw [execute_eq, hj]

/-- C7: a generation response that is a valid `ExecutionResult` JSON
document (with no interior fence markers and no surrounding whitespace)
wrapped in markdown code fences — either ```` ```json ```` or plain
```` ``` ```` — is fence-stripped by `execute` and parses to exactly the
record the unfenced text yields, instead of failing. -/
theorem execute_fence_stripping (env : Env) (k : Nat) (q pt J : Chars) (r : Json)
    (hJ : jsonLoads J = some r) (hclean : stripFences J = J) (hstrip : pyStrip J = J)
    (hscript : env.script k = fenceWrapJson J ∨ env.script k = fenceWrapPlain J) :
    execute env k q pt = .ok (r, k + 1) ∧
    jsonLoads (stripFences (pyStrip J)) = some r := by
  constructor
  · rw [execute_eq]
    rcases hscript with h | h
    · rw [h, pyStrip_fenceWrapJson, stripFences_fenceWrapJson, hclean,
        jsonLoads_newline_wrap, hJ]
    · rw [h, pyStrip_fenceWrapPlain, stripFences_fenceWrapPlain, hclean,
        jsonLoads_newline_wrap, hJ]
  · rw [hstrip, hclean, hJ]

/-- The `checks`-reading part of the loop body
(`verify_result.get("checks", [])` followed by `extend`). -/
def checksOf (v : Json) : Except PyErr (List Json) :=
  match pyGet v checksKey (.arr []) with
  | .error e => .error e
  | .ok cj => pyIter cj

/-- Two `solve` results agree on everything except the contents of
`metadata.checks`: same exception, or same answer, status, visible
reasoning, retry count and plan. -/
def agreeUpToChecks : Except PyErr FinalResult → Except PyErr FinalResult → Prop
  | .error e1, .error e2 => e1 = e2
  | .ok r1, .ok r2 =>
    r1.answer = r2.answer ∧ r1.status = r2.status ∧
    r1.reasoning_visible_to_user = r2.reasoning_visible_to_user ∧
    r1.metadata.retries = r2.metadata.retries ∧ r1.metadata.plan = r2.metadata.plan
  | _, _ => False

/-- Two environments with identical planner/executor responses whose
verifier verdicts agree on `passed` (and both iterate their checks without
error) produce attempt outcomes differing at most in the checks lists. -/
theorem attemptOutcome_agree (env1 env2 : Env) (i : Nat)
    (hexec : env1.script (3 * i + 1) = env2.script (3 * i + 1))
    (hv : ∃ v1 v2, verifyRespAt env1 i = some v1 ∧ verifyRespAt env2 i = some v2 ∧
          pyGet v1 passedKey (.bool false) = pyGet v2 passedKey (.bool false) ∧
          (∃ cs1, checksOf v1 = .ok cs1) ∧ (∃ cs2, checksOf v2 = .ok cs2)) :
    (∃ e, attemptOutcome env1 i = .error e ∧ attemptOutcome env2 i = .error e) ∨
    (∃ er cs1 cs2 b, attemptOutcome env1 i = .ok (er, cs1, b) ∧
      attemptOutcome env2 i = .ok (er, cs2, b)) := by
  obtain ⟨v1, v2, hV1, hV2, hpass, ⟨cs1, hc1⟩, ⟨cs2, hc2⟩⟩ := hv
  have hexecEq : execRespAt env2 i = execRespAt env1 i := by
    unfold execRespAt
    rw [hexec]
  have hc1' : ∃ cj1, pyGet v1 checksKey (.arr []) = .ok cj1 ∧ pyIter cj1 = .ok cs1 := by
    unfold checksOf at hc1
    cases hx : pyGet v1 checksKey (Json.arr []) with
    | error e => rw [hx] at hc1; exact absurd hc1 (by simp)
    | ok cj => rw [hx] at hc1; exact ⟨cj, rfl, hc1⟩
  have hc2' : ∃ cj2, pyGet v2 checksKey (.arr []) = .ok cj2 ∧ pyIter cj2 = .ok cs2 := by
    unfold checksOf at hc2
    cases hx : pyGet v2 checksKey (Json.arr []) with
    | error e => rw [hx] at hc2; exact absurd hc2 (by simp)
    | ok cj => rw [hx] at hc2; exact ⟨cj, rfl, hc2⟩
  obtain ⟨cj1, hcj1, hci1⟩ := hc1'
  obtain ⟨cj2, hcj2, hci2⟩ := hc2'
  unfold attemptOutcome
  rw [hexecEq]
  cases hE : execRespAt env1 i with
  | none => exact Or.inl ⟨.jsonDecodeError, rfl, rfl⟩
  | some er =>
    dsimp only
    cases hpa : pyGet er answerKey (Json.str []) with
    | error e => exact Or.inl ⟨e, rfl, rfl⟩
    | ok pa =>
      dsimp only
      cases hex : pyGet er explKey (Json.str []) with
      | error e => exact Or.inl ⟨e, rfl, rfl⟩
      | ok expl =>
        dsimp only
        simp only [hV1, hV2, hcj1, hcj2, hci1, hci2]
        cases hp1 : pyGet v1 passedKey (Json.bool false) with
        | error e =>
          have h2 : pyGet v2 passedKey (Json.bool false) = .error e :=
            hpass.symm.trans hp1
          simp only [h2]
          exact Or.inl ⟨e, rfl, rfl⟩
        | ok p =>
          have h2 : pyGet v2 passedKey (Json.bool false) = .ok p :=
            hpass.symm.trans hp1
          simp only [h2]
          exact Or.inr ⟨er, cs1, cs2, truthy p, rfl, rfl⟩

theorem solveGo_agree (env1 env2 : Env) (q : Chars)
    (hpe : ∀ i, env1.script (3 * i) = env2.script (3 * i) ∧
                env1.script (3 * i + 1) = env2.script (3 * i + 1))
    (hver : ∀ i, ∃ v1 v2, verifyRespAt env1 i = some v1 ∧ verifyRespAt env2 i = some v2 ∧
            pyGet v1 passedKey (.bool false) = pyGet v2 passedKey (.bool false) ∧
            (∃ cs1, checksOf v1 = .ok cs1) ∧ (∃ cs2, checksOf v2 = .ok cs2)) :
    ∀ (n attempt : Nat) (md1 md2 : Metadata),
      md1.retries = md2.retries → md1.plan = md2.plan →
      agreeUpToChecks (solveGo env1 q n attempt (3 * attempt) md1)
        (solveGo env2 q n attempt (3 * attempt) md2) := by
  intro n
  induction n with
  | zero =>
    intro attempt md1 md2 hr hp
    simp only [solveGo]
    exact ⟨rfl, rfl, rfl, hr, hp⟩
  | succ n ih =>
    intro attempt md1 md2 hr hp
    rw [solveGo_step, solveGo_step]
    have hplanEq : planTextAt env1 attempt = planTextAt env2 attempt := by
      unfold planTextAt
      rw [(hpe attempt).1]
    rcases attemptOutcome_agree env1 env2 attempt (hpe attempt).2 (hver attempt) with
      ⟨e, h1, h2⟩ | ⟨er, cs1, cs2, b, h1, h2⟩
    · rw [h1, h2]
      exact rfl
    · rw [h1, h2]
      dsimp only
      cases b with
      | true =>
        rw [if_pos rfl, if_pos rfl]
        cases hs : summarize_short er with
        | error e => exact rfl
        | ok vis =>
          exact ⟨rfl, rfl, rfl, rfl, congrArg some hplanEq⟩
      | false =>
        rw [if_neg (by simp), if_neg (by simp)]
        exact ih (attempt + 1) _ _ rfl (congrArg some hplanEq)

/-- C8: the accept/retry decision and every user-facing output of `solve`
depend only on the `passed` field of each attempt's verdict: two runs with
identical planner/executor scripts whose verdicts agree on `passed` (their
`checks`/`issues` differing arbitrarily) produce results agreeing on
exception, answer, status, visible reasoning, retry count and plan. -/
theorem solve_decision_depends_only_on_passed (env1 env2 : Env) (q : Chars) (m : Nat)
    (hpe : ∀ i, env1.script (3 * i) = env2.script (3 * i) ∧
                env1.script (3 * i + 1) = env2.script (3 * i + 1))
    (hver : ∀ i, ∃ v1 v2, verifyRespAt env1 i = some v1 ∧ verifyRespAt env2 i = some v2 ∧
            pyGet v1 passedKey (.bool false) = pyGet v2 passedKey (.bool false) ∧
            (∃ cs1, checksOf v1 = .ok cs1) ∧ (∃ cs2, checksOf v2 = .ok cs2)) :
    agreeUpToChecks (solve env1 q m) (solve env2 q m) :=
  solveGo_agree env1 env2 q hpe hver (m + 1) 0 initMetadata initMetadata rfl rfl

/-- Environment whose verifier verdict is `{"checks": 7}`: an object
lacking `passed` whose `checks` value is not iterable. -/
def envNoPassBadChecks : Env := ⟨fun n => match n with
  | 0 => "p".data
  | 1 => "\x7b\x7d".data
  | _ => "\x7b\"checks\": 7\x7d".data⟩

/-- C10 counterexample: a verdict that lacks `passed` does not always leave
`solve` error-free.  On the verdict `{"checks": 7}` — an object with no
`passed` field — `metadata["checks"].extend(7)` raises `TypeError` out of
`solve` before the `passed` lookup is ever reached, so no `FinalResult` is
produced. -/
theorem missing_passed_noniterable_checks_raises :
    verifyRespAt envNoPassBadChecks 0 =
      some (.obj [(checksKey, Json.num false "7".data [] [])]) ∧
    assocLookup [(checksKey, Json.num false "7".data [] [])] passedKey = none ∧
    solve envNoPassBadChecks [] 0 = .error .typeError :=
  ⟨rfl, rfl, rfl⟩

/-- C10 amended: the `passed` lookup itself never raises — on a verdict
object lacking `passed` it defaults to `false` — so provided the preceding
`checks` extension succeeded (`checks` absent, defaulting to the empty
list, or present with an iterable value), the attempt is silently treated
as rejected and the loop proceeds to retry or exhaustion; and a verdict
lacking `checks` contributes nothing to `metadata.checks`.  (The `extend`
runs before the `passed` lookup, so a verdict whose `checks` value is not
iterable still raises `TypeError` out of `solve`, which is the corrected
part.) -/
theorem verdict_missing_passed_defaults (env : Env) (q : Chars) (rem attempt : Nat)
    (md : Metadata) (kvs vkvs : List (Chars × Json)) (cs : List Json)
    (hexec : execRespAt env attempt = some (.obj kvs))
    (hver : verifyRespAt env attempt = some (.obj vkvs))
    (hnopass : assocLookup vkvs passedKey = none)
    (hchecks : checksOf (.obj vkvs) = .ok cs) :
    attemptOutcome env attempt = .ok (.obj kvs, cs, false) ∧
    solveGo env q (rem + 1) attempt (3 * attempt) md =
      solveGo env q rem (attempt + 1) (3 * attempt + 3)
        { md with retries := attempt, plan := some (planTextAt env attempt),
                  checks := md.checks ++ cs } ∧
    (assocLookup vkvs checksKey = none → cs = []) := by
  have hiter : pyIter ((assocLookup vkvs checksKey).getD (Json.arr [])) = .ok cs := hchecks
  have hout : attemptOutcome env attempt = .ok (.obj kvs, cs, false) := by
    simp [attemptOutcome, hexec, hver, pyGet, hnopass, hiter, truthy]
  refine ⟨hout, ?_, ?_⟩
  · rw [solveGo_step, hout]
    dsimp only
    rw [if_neg (by simp)]
  · intro hnock
    rw [hnock] at hiter
    simp [pyIter] at hiter
    exact hiter

/-! Concrete scripted environments witnessing the theorems above. -/

def envWinOne : Env := ⟨fun n => match n with
  | 0 => "1. plan".data
  | 1 => "\x7b\"proposed_answer\": \"7\", \"explanation\": \"ok\"\x7d".data
  | _ => "\x7b\"passed\": true, \"checks\": [true]\x7d".data⟩

def rWinOne : FinalResult :=
  ⟨.str "7".data, successStatus, "ok".data, ⟨some "1. plan".data, [Json.bool true], 0⟩⟩

theorem solve_success_answer_witness :
    ∃ er cs vr p,
      execRespAt envWinOne rWinOne.metadata.retries = some er ∧
      attemptOutcome envWinOne rWinOne.metadata.retries = .ok (er, cs, true) ∧
      verifyRespAt envWinOne rWinOne.metadata.retries = some vr ∧
      pyGet vr passedKey (.bool false) = .ok p ∧ truthy p = true ∧
      pyGet er answerKey (.str []) = .ok rWinOne.answer :=
  solve_success_answer envWinOne [] 1 rWinOne (by rfl) (by rfl)

def envAllFail : Env := ⟨fun n => match n with
  | 0 => "p".data
  | 1 => "\x7b\x7d".data
  | 2 => "\x7b\"passed\": false\x7d".data
  | 3 => "p".data
  | 4 => "\x7b\x7d".data
  | _ => "\x7b\"passed\": false\x7d".data⟩

theorem solve_exhausted_fixed_failure_witness :
    ∃ r, solve envAllFail [] 1 = .ok r ∧
      r.status = failedStatus ∧ r.answer = .str [] ∧
      r.reasoning_visible_to_user = failMessage ∧
      r.metadata.retries = 1 ∧ r.metadata.checks = checksConcat envAllFail 0 2 ∧
      r.metadata.plan = some (planTextAt envAllFail 1) :=
  solve_exhausted_fixed_failure envAllFail [] 1 (by
    intro i hi
    interval_cases i
    · exact ⟨Json.obj [], [], rfl⟩
    · exact ⟨Json.obj [], [], rfl⟩)

def envRetryOnce : Env := ⟨fun n => match n with
  | 0 => "p".data
  | 1 => "\x7b\x7d".data
  | 2 => "\x7b\"passed\": false\x7d".data
  | 3 => "q".data
  | 4 => "\x7b\"proposed_answer\": \"x\", \"explanation\": \"e\"\x7d".data
  | _ => "\x7b\"passed\": true\x7d".data⟩

def rRetryOnce : FinalResult :=
  ⟨.str "x".data, successStatus, "e".data, ⟨some "q".data, [], 1⟩⟩

theorem solve_retries_bounded_witness :
    rRetryOnce.metadata.retries ≤ 1 ∧
    (rRetryOnce.status = successStatus ∨ rRetryOnce.status = failedStatus) ∧
    (rRetryOnce.status = successStatus →
      (∃ er cs, attemptOutcome envRetryOnce rRetryOnce.metadata.retries = .ok (er, cs, true)) ∧
      ∀ i, i < rRetryOnce.metadata.retries →
        ∃ er cs, attemptOutcome envRetryOnce i = .ok (er, cs, false)) ∧
    (rRetryOnce.status = failedStatus →
      rRetryOnce.metadata.retries = 1 ∧
      ∀ i, i ≤ 1 → ∃ er cs, attemptOutcome envRetryOnce i = .ok (er, cs, false)) :=
  solve_retries_bounded envRetryOnce [] 1 rRetryOnce (by rfl)

def envOneCheck : Env := ⟨fun n => match n with
  | 0 => "p".data
  | 1 => "\x7b\"proposed_answer\": \"7\", \"explanation\": \"ok\"\x7d".data
  | _ => "\x7b\"passed\": true, \"checks\": [true]\x7d".data⟩

def rOneCheck : FinalResult :=
  ⟨.str "7".data, successStatus, "ok".data, ⟨some "p".data, [Json.bool true], 0⟩⟩

theorem solve_checks_append_only_witness :
    (∀ (n attempt k : Nat) (md : Metadata) (rr : FinalResult),
        solveGo envOneCheck [] n attempt k md = .ok rr →
        md.checks <+: rr.metadata.checks) ∧
    rOneCheck.metadata.retries + 1 ≤ rOneCheck.metadata.checks.length :=
  solve_checks_append_only envOneCheck [] 0 rOneCheck (by rfl) (by
    intro i hi er cs b h
    have hi0 : i ≤ 0 := hi
    have hieq : i = 0 := Nat.le_zero.mp hi0
    subst hieq
    have h0 : attemptOutcome envOneCheck 0 =
        .ok (Json.obj [("proposed_answer".data, Json.str "7".data),
                       ("explanation".data, Json.str "ok".data)],
             [Json.bool true], true) := rfl
    have h2 := h0.symm.trans h
    simp only [Except.ok.injEq, Prod.mk.injEq] at h2
    obtain ⟨-, hcs, -⟩ := h2
    rw [← hcs]
    simp)

def envBadExec : Env := ⟨fun n => match n with
  | 0 => "p".data
  | 1 => "not json".data
  | _ => []⟩

theorem solve_parse_error_aborts_witness :
    solve envBadExec [] 1 = .error .jsonDecodeError :=
  solve_parse_error_aborts envBadExec [] 1 0 (by omega)
    (fun t ht => absurd ht (Nat.not_lt_zero t)) (by rfl)

def envPlainJson : Env := ⟨fun _ => "\x7b\"a\": 1\x7d".data⟩

theorem execute_error_iff_parse_failure_witness :
    execute envPlainJson 0 [] [] =
      .ok (Json.obj [("a".data, Json.num false "1".data [] [])], 1) :=
  (execute_error_iff_parse_failure envPlainJson 0 [] []).2
    (Json.obj [("a".data, Json.num false "1".data [] [])]) (by rfl)

def execJsonClean : Chars :=
  "\x7b\"proposed_answer\": \"42\", \"explanation\": \"six times seven\"\x7d".data

def envFenced : Env := ⟨fun _ => fenceWrapJson execJsonClean⟩

def parsedClean : Json :=
  Json.obj [("proposed_answer".data, Json.str "42".data),
            ("explanation".data, Json.str "six times seven".data)]

theorem execute_fence_stripping_witness :
    execute envFenced 0 [] [] = .ok (parsedClean, 1) ∧
    jsonLoads (stripFences (pyStrip execJsonClean)) = some parsedClean :=
  execute_fence_stripping envFenced 0 [] [] execJsonClean parsedClean
    (by rfl) (by rfl) (by rfl) (Or.inl rfl)

def scriptPE : Nat → Chars := fun n =>
  if n % 3 = 0 then "p".data
  else if n % 3 = 1 then "\x7b\x7d".data
  else []

def envVerdictA : Env := ⟨fun n =>
  if n % 3 = 2 then "\x7b\"passed\": false, \"checks\": [true], \"issues\": \"x\"\x7d".data
  else scriptPE n⟩

def envVerdictB : Env := ⟨fun n =>
  if n % 3 = 2 then "\x7b\"passed\": false, \"checks\": [], \"issues\": \"y\"\x7d".data
  else scriptPE n⟩

theorem envVerdicts_planner_executor_agree :
    ∀ i, envVerdictA.script (3 * i) = envVerdictB.script (3 * i) ∧
      envVerdictA.script (3 * i + 1) = envVerdictB.script (3 * i + 1) := by
  intro i
  have h0 : (3 * i) % 3 = 0 := by omega
  have h1 : (3 * i + 1) % 3 = 1 := by omega
  constructor
  · simp only [envVerdictA, envVerdictB]
    simp only [h0]
    rfl
  · simp only [envVerdictA, envVerdictB]
    simp only [h1]
    rfl

theorem envVerdicts_passed_agree :
    ∀ i, ∃ v1 v2, verifyRespAt envVerdictA i = some v1 ∧
      verifyRespAt envVerdictB i = some v2 ∧
      pyGet v1 passedKey (.bool false) = pyGet v2 passedKey (.bool false) ∧
      (∃ cs1, checksOf v1 = .ok cs1) ∧ (∃ cs2, checksOf v2 = .ok cs2) := by
  intro i
  have h2 : (3 * i + 2) % 3 = 2 := by omega
  have hsA : envVerdictA.script (3 * i + 2) =
      "\x7b\"passed\": false, \"checks\": [true], \"issues\": \"x\"\x7d".data := by
    simp only [envVerdictA]
    simp only [h2]
    rfl
  have hsB : envVerdictB.script (3 * i + 2) =
      "\x7b\"passed\": false, \"checks\": [], \"issues\": \"y\"\x7d".data := by
    simp only [envVerdictB]
    simp only [h2]
    rfl
  refine ⟨Json.obj [(passedKey, .bool false), (checksKey, .arr [.bool true]),
                    ("issues".data, .str "x".data)],
          Json.obj [(passedKey, .bool false), (checksKey, .arr []),
                    ("issues".data, .str "y".data)], ?_, ?_, rfl, ⟨[Json.bool true], rfl⟩,
          ⟨[], rfl⟩⟩
  · unfold verifyRespAt
    rw [hsA]
    rfl
  · unfold verifyRespAt
    rw [hsB]
    rfl

set_option maxHeartbeats 4000000 in
theorem solve_decision_depends_only_on_passed_witness :
    agreeUpToChecks (solve envVerdictA [] 0) (solve envVerdictB [] 0) :=
  solve_decision_depends_only_on_passed envVerdictA envVerdictB [] 0
    envVerdicts_planner_executor_agree envVerdicts_passed_agree

def envExplain : Env := ⟨fun n => match n with
  | 0 => "p".data
  | 1 => "\x7b\"proposed_answer\": \"7\", \"explanation\": \" spaced out \"\x7d".data
  | _ => "\x7b\"passed\": true\x7d".data⟩

def rExplain : FinalResult :=
  ⟨.str "7".data, successStatus, "spaced out".data, ⟨some "p".data, [], 0⟩⟩

theorem solve_reasoning_truncated_witness :
    rExplain.reasoning_visible_to_user.length ≤ 250 ∧
    (rExplain.status = failedStatus → rExplain.reasoning_visible_to_user = failMessage) ∧
    (rExplain.status = successStatus →
      ∃ er s, execRespAt envExplain rExplain.metadata.retries = some er ∧
        pyGet er explKey (.str []) = .ok (.str s) ∧
        rExplain.reasoning_visible_to_user = (pyStrip s).take 250) :=
  solve_reasoning_truncated envExplain [] 0 rExplain (by rfl)

def envNoPassWithChecks : Env := ⟨fun n => match n with
  | 0 => "p".data
  | 1 => "\x7b\x7d".data
  | _ => "\x7b\"checks\": [true]\x7d".data⟩

theorem verdict_missing_passed_defaults_witness :
    attemptOutcome envNoPassWithChecks 0 = .ok (.obj [], [Json.bool true], false) ∧
    solveGo envNoPassWithChecks [] (0 + 1) 0 (3 * 0) initMetadata =
      solveGo envNoPassWithChecks [] 0 (0 + 1) (3 * 0 + 3)
        { initMetadata with retries := 0,
                            plan := some (planTextAt envNoPassWithChecks 0),
                            checks := initMetadata.checks ++ [Json.bool true] } ∧
    (assocLookup [(checksKey, Json.arr [Json.bool true])] checksKey = none →
      [Json.bool true] = ([] : List Json)) :=
  verdict_missing_passed_defaults envNoPassWithChecks [] 0 0 initMetadata []
    [(checksKey, Json.arr [Json.bool true])] [Json.bool true]
    (by rfl) (by rfl) (by rfl) (by rfl)

end Agent
